import Mathlib

/-!
# Verification of the file-based blog store of `go-react-blog`

This file is a shallow embedding, in Lean 4, of the storage layer of the
`go-react-blog` repository (`backend/storage/blog_storage.go`, data model from
`backend/models/blog.go`), together with theorems settling the specification
claims about it.

Modelling conventions:

* `time.Time` values and `uuid.UUID` values are abstracted to natural numbers.
  Their textual serialisation (`Format(time.RFC3339)`, `UUID.String()`) is
  modelled by decimal notation (`natToStr`), and the corresponding parsers
  (`time.Parse(time.RFC3339, _)`, `uuid.Parse`) by `parseNatStr`, so that
  "well-formed string that parses back to the original value" and
  "malformed string / value of the wrong JSON type" are both representable.
* The data-root directory is modelled as an association list from directory
  name to directory contents (`DataRoot`).  The key `""` stands for files
  written directly into the data root itself: `filepath.Join(dataDir, "")`
  is `dataDir`, which is how `saveBlog` behaves when given an empty slug.
  `os.ReadDir` only reports proper subdirectories as directories, so entries
  keyed `""` are ignored by the listing (they are plain files of the root).
* JSON metadata files are modelled by `MetaFile`: either `invalid`
  (not valid JSON, `json.Unmarshal` fails) or a parsed object, a list of
  key/value pairs of `JVal`s.  A Go unchecked type assertion
  `metadata[k].(string)` is modelled by `assertString`, whose failure is a
  run-time panic, not an `error` value.
* Go's `sort.Slice` with comparator `blogs[i].Created.After(blogs[j].Created)`
  is an unstable sort; it is modelled by `List.insertionSort` with the
  total relation `createdGE` (descending by creation time), a sort order
  consistent with that comparator.
* Filesystem write errors (disk full, permissions) are outside the model:
  reads and writes of the modelled in-memory filesystem always succeed.
  `os.Rename` failures that are decided by the filesystem *state* (source
  missing, destination an existing non-empty directory) are modelled.
-/

deriving instance DecidableEq for Except

namespace GoBlog

/-! ## Decimal strings: model of RFC3339 / UUID serialisation -/

/-- The decimal digit character for `k % 10`. -/
def digitChar (k : Nat) : Char :=
  Char.ofNat ('0'.toNat + k % 10)

/-- Numeric value of a decimal digit character, `none` for any other char. -/
def digitVal (c : Char) : Option Nat :=
  if '0' ≤ c ∧ c ≤ '9' then some (c.toNat - '0'.toNat) else none

/-- Left-to-right accumulation of decimal digits; fails on a non-digit. -/
def natFromDigitsAux : List Char → Nat → Option Nat
  | [], acc => some acc
  | c :: rest, acc =>
    match digitVal c with
    | some d => natFromDigitsAux rest (acc * 10 + d)
    | none => none

/-- Model of a textual-timestamp / uuid parser: parses a non-empty all-digit
string, fails otherwise. -/
def parseNatStr (s : String) : Option Nat :=
  match s.data with
  | [] => none
  | c :: rest => natFromDigitsAux (c :: rest) 0

/-- Fuelled most-significant-first decimal digit expansion. -/
def natToStrAux : Nat → Nat → List Char
  | 0, _ => []
  | fuel + 1, n =>
    if n < 10 then [digitChar n]
    else natToStrAux fuel (n / 10) ++ [digitChar (n % 10)]

/-- Model of timestamp / uuid serialisation: decimal notation. -/
def natToStr (n : Nat) : String :=
  ⟨natToStrAux (n + 1) n⟩



/-! ## The slug generator

Embedding of `slugify` from `blog_storage.go`:
lowercase, replace spaces and underscores by hyphens, keep only
`[a-z0-9-]`, do **one** pass of replacing `--` by `-` (Go's
`strings.ReplaceAll(slug, "--", "-")` replaces non-overlapping occurrences
left to right in a single pass), then trim leading/trailing hyphens
(`strings.Trim(slug, "-")`).  Lowercasing is `strings.ToLower`; the model
restricts it to ASCII (`Char.toLower`), which agrees with Go on every ASCII
character, and non-ASCII characters are removed by the filter step anyway. -/

/-- `strings.ReplaceAll(slug, " ", "-")` then `strings.ReplaceAll(slug, "_", "-")`,
as a per-character map. -/
def spaceToHyphen (c : Char) : Char :=
  if c = ' ' ∨ c = '_' then '-' else c

/-- The character filter of `slugify`: keep only `a`–`z`, `0`–`9` and `-`. -/
def isSlugChar (c : Char) : Bool :=
  ('a' ≤ c && c ≤ 'z') || ('0' ≤ c && c ≤ '9') || c = '-'

/-- One left-to-right pass of `strings.ReplaceAll(slug, "--", "-")`:
each non-overlapping occurrence of two hyphens becomes one. -/
def collapseOnce : List Char → List Char
  | [] => []
  | [c] => [c]
  | c1 :: c2 :: rest =>
    if c1 = '-' ∧ c2 = '-' then '-' :: collapseOnce rest
    else c1 :: collapseOnce (c2 :: rest)

/-- `strings.Trim(slug, "-")`: drop hyphens from both ends. -/
def trimHyphens (l : List Char) : List Char :=
  ((l.dropWhile fun c => c = '-').reverse.dropWhile fun c => c = '-').reverse

/-- Embedding of `slugify` (blog_storage.go, lines 39–59). -/
def slugify (title : String) : String :=
  ⟨trimHyphens (collapseOnce (((title.data.map Char.toLower).map spaceToHyphen).filter
    fun c => isSlugChar c))⟩

/-! ## Data model

`models.Blog` from `backend/models/blog.go`; `uuid.UUID` and `time.Time`
abstracted to `Nat` (see the header). -/

/-- `models.Blog`. -/
structure Blog where
  ID : Nat
  Title : String
  Content : String
  AuthorName : String
  AuthorUsername : String
  MetaName : String
  MetaDescription : String
  Slug : String
  Created : Nat
  Updated : Nat
  Published : Bool
deriving Repr, DecidableEq

/-- `models.UpdateBlogRequest`: every field optional (`*string` / `*bool`). -/
structure UpdateBlogRequest where
  Title : Option String := none
  Content : Option String := none
  MetaName : Option String := none
  MetaDescription : Option String := none
  Slug : Option String := none
  Published : Option Bool := none
deriving Repr, DecidableEq

/-! ## The filesystem model -/

/-- A parsed JSON value (the shapes the metadata codec can produce or meet). -/
inductive JVal where
  | str (s : String)
  | jbool (b : Bool)
  | jnum (n : Int)
  | jnull
deriving Repr, DecidableEq

/-- A metadata file: either not valid JSON (`json.Unmarshal` fails), or a
parsed JSON object given as key/value pairs (keys assumed distinct). -/
inductive MetaFile where
  | invalid
  | obj (fields : List (String × JVal))
deriving Repr, DecidableEq

/-- Key lookup in a parsed JSON object (Go `metadata[k]`; a missing key gives
Go's `nil` interface value, here `none`). -/
def jGet : List (String × JVal) → String → Option JVal
  | [], _ => none
  | (k, v) :: rest, key => if k = key then some v else jGet rest key

/-- Contents of one directory entry of the data root: the two files the store
knows about, each possibly absent. -/
structure Dir where
  contentFile : Option String
  metadataFile : Option MetaFile
deriving Repr, DecidableEq

/-- The data-root directory: an association list from entry name to contents,
in the (name-sorted) order `os.ReadDir` reports them.  The key `""` denotes
files lying directly in the data root itself (see the header); every other
key is a proper subdirectory. -/
abbrev DataRoot := List (String × Dir)

/-- Directory lookup by name. -/
def fsGet : DataRoot → String → Option Dir
  | [], _ => none
  | (n, d) :: rest, name => if n = name then some d else fsGet rest name

/-- Writing a directory's contents: replace in place if the name exists,
otherwise add the entry. -/
def fsSet : DataRoot → String → Dir → DataRoot
  | [], name, d => [(name, d)]
  | (n, d0) :: rest, name, d =>
    if n = name then (n, d) :: rest else (n, d0) :: fsSet rest name d

/-- `os.RemoveAll(filepath.Join(dataDir, name))`: for a proper name, remove
that entry (removing a non-existent path is, as in Go, not an error); for
`name = ""` the path is the data root itself and everything is removed. -/
def fsRemoveAll (st : DataRoot) (name : String) : DataRoot :=
  if name = "" then [] else st.filter fun e => ¬(e.1 = name)

/-- Whether a directory is empty (holds neither of the two files). -/
def dirIsEmpty (d : Dir) : Bool :=
  d.contentFile.isNone && d.metadataFile.isNone

/-- `os.Rename(oldDir, newDir)` on directories, `rename(2)` semantics:
fails if the source is missing, or if the destination exists and is a
non-empty directory; renaming over an existing *empty* directory replaces it.
Renames from or to the data root itself (`""`) fail (`EINVAL`/`ENOTEMPTY`).
Returns `none` on failure. -/
def fsRename (st : DataRoot) (oldName newName : String) : Option DataRoot :=
  if oldName = "" ∨ newName = "" then none
  else
    match fsGet st oldName with
    | none => none
    | some d =>
      match fsGet st newName with
      | none => some (fsSet (st.filter fun e => ¬(e.1 = oldName)) newName d)
      | some d' =>
        if dirIsEmpty d' then
          some (fsSet (st.filter fun e => ¬(e.1 = oldName)) newName d)
        else none

/-! ## The codec: `saveBlog` and the decoding half of `loadAllBlogs` -/

/-- The metadata map written by `saveBlog` (blog_storage.go, lines 91–102):
note that the `slug` field is the `slug` *parameter* of `saveBlog`, not
`blog.Slug`. -/
def metadataOf (blog : Blog) (slug : String) : MetaFile :=
  .obj [
    ("id", .str (natToStr blog.ID)),
    ("slug", .str slug),
    ("title", .str blog.Title),
    ("author_name", .str blog.AuthorName),
    ("author_username", .str blog.AuthorUsername),
    ("meta_name", .str blog.MetaName),
    ("meta_description", .str blog.MetaDescription),
    ("created", .str (natToStr blog.Created)),
    ("updated", .str (natToStr blog.Updated)),
    ("published", .jbool blog.Published)]

/-- The directory contents produced by `saveBlog blog slug`. -/
def saveDir (blog : Blog) (slug : String) : Dir :=
  { contentFile := some blog.Content, metadataFile := some (metadataOf blog slug) }

/-- Embedding of `saveBlog` (blog_storage.go, lines 82–122): create the
directory for `slug` and write `metadata.json` and `content.md` into it. -/
def saveBlog (st : DataRoot) (blog : Blog) (slug : String) : DataRoot :=
  fsSet st slug (saveDir blog slug)

/-- A Go unchecked type assertion `v.(string)`: the value if it is a string,
otherwise a run-time panic (`.error`). -/
def assertString : Option JVal → Except Unit String
  | some (.str s) => .ok s
  | _ => .error ()

/-- A Go unchecked type assertion `v.(bool)`. -/
def assertBool : Option JVal → Except Unit Bool
  | some (.jbool b) => .ok b
  | _ => .error ()

/-- Timestamp decoding (blog_storage.go, lines 157–187): if the field is a
string that parses, use it, otherwise silently fall back to `time.Now()`
(the `now` argument).  Never fails. -/
def parseTimeField (v : Option JVal) (now : Nat) : Nat :=
  match v with
  | some (.str s) =>
    match parseNatStr s with
    | some t => t
    | none => now
  | _ => now

/-- Id decoding (blog_storage.go, lines 189–201): the field must be a string
that `uuid.Parse` accepts; otherwise the blog is skipped (`none`). -/
def parseIdField : Option JVal → Option Nat
  | some (.str s) => parseNatStr s
  | _ => none

/-- Outcome of examining one directory entry of the data root. -/
inductive LoadResult where
  | notBlog
  | skip
  | panicked
  | ok (b : Blog)
deriving Repr, DecidableEq

/-- Decoding of a single subdirectory inside the loop of `loadAllBlogs`
(blog_storage.go, lines 133–219).  Both files must exist (`os.Stat`), the
metadata must parse as JSON, the id must parse — failures of these checks
skip the entry.  The remaining fields are read with *unchecked* type
assertions, whose failure is a run-time panic. -/
def loadBlogFromDir (now : Nat) (d : Dir) : LoadResult :=
  match d.contentFile, d.metadataFile with
  | some content, some metaFile =>
    match metaFile with
    | .invalid => .skip
    | .obj fields =>
      let created := parseTimeField (jGet fields "created") now
      let updated := parseTimeField (jGet fields "updated") now
      match parseIdField (jGet fields "id") with
      | none => .skip
      | some blogID =>
        match assertString (jGet fields "title") with
        | .error _ => .panicked
        | .ok title =>
        match assertString (jGet fields "author_name") with
        | .error _ => .panicked
        | .ok authorName =>
        match assertString (jGet fields "author_username") with
        | .error _ => .panicked
        | .ok authorUsername =>
        match assertString (jGet fields "meta_name") with
        | .error _ => .panicked
        | .ok metaName =>
        match assertString (jGet fields "meta_description") with
        | .error _ => .panicked
        | .ok metaDescription =>
        match assertString (jGet fields "slug") with
        | .error _ => .panicked
        | .ok slug =>
        match assertBool (jGet fields "published") with
        | .error _ => .panicked
        | .ok published =>
          .ok { ID := blogID, Title := title, Content := content,
                AuthorName := authorName, AuthorUsername := authorUsername,
                MetaName := metaName, MetaDescription := metaDescription,
                Slug := slug, Created := created, Updated := updated,
                Published := published }
  | _, _ => .notBlog

/-- The scanning loop of `loadAllBlogs`: walk the `os.ReadDir` entries.  Files
directly in the data root (key `""`) fail `entry.IsDir()` and are passed
over; incomplete or undecodable subdirectories are skipped; a failing type
assertion panics, aborting the whole call (`.error`). -/
def decodeEntries (now : Nat) : DataRoot → Except Unit (List Blog)
  | [] => .ok []
  | (name, d) :: rest =>
    if name = "" then decodeEntries now rest
    else
      match loadBlogFromDir now d with
      | .panicked => .error ()
      | .ok b =>
        match decodeEntries now rest with
        | .ok bs => .ok (b :: bs)
        | .error e => .error e
      | _ => decodeEntries now rest

/-- Descending order of creation time: the sort order produced by
`sort.Slice(blogs, func(i, j) { return blogs[i].Created.After(blogs[j].Created) })`. -/
def createdGE (a b : Blog) : Prop := b.Created ≤ a.Created

instance : DecidableRel createdGE := fun a b => Nat.decLe b.Created a.Created

instance : IsTotal Blog createdGE :=
  ⟨fun a b => Nat.le_total b.Created a.Created⟩

instance : IsTrans Blog createdGE :=
  ⟨fun _ _ _ h1 h2 => Nat.le_trans h2 h1⟩

/-- Embedding of `loadAllBlogs` (blog_storage.go, lines 125–230): decode the
directory entries, then sort newest-first by creation time. -/
def loadAllBlogs (now : Nat) (st : DataRoot) : Except Unit (List Blog) :=
  match decodeEntries now st with
  | .ok blogs => .ok (List.insertionSort createdGE blogs)
  | .error e => .error e

/-! ## The store operations -/

/-- Errors a store operation can end in.  `goPanic` stands for the run-time
panic described at `loadBlogFromDir`; the others are the `error` values the
source returns. -/
inductive StoreErr where
  | goPanic
  | notFound
  | slugExists
  | renameFailed
deriving Repr, DecidableEq

/-- `GetAllBlogs` (blog_storage.go, lines 233–237): `loadAllBlogs` under the
read lock. -/
def GetAllBlogs (now : Nat) (st : DataRoot) : Except StoreErr (List Blog) :=
  match loadAllBlogs now st with
  | .ok blogs => .ok blogs
  | .error _ => .error .goPanic

/-- The linear scan of `GetBlogBySlug` / `UpdateBlogBySlug`: first blog of
the (sorted) list whose `Slug` matches. -/
def findBySlug : List Blog → String → Option Blog
  | [], _ => none
  | b :: rest, slug => if b.Slug = slug then some b else findBySlug rest slug

/-- Embedding of `GetBlogBySlug` (blog_storage.go, lines 240–257): load all
blogs and search by slug; `errors.New("blog not found")` if absent. -/
def GetBlogBySlug (now : Nat) (st : DataRoot) (slug : String) : Except StoreErr Blog :=
  match loadAllBlogs now st with
  | .error _ => .error .goPanic
  | .ok blogs =>
    match findBySlug blogs slug with
    | some b => .ok b
    | none => .error .notFound

/-- Embedding of `CreateBlog` (blog_storage.go, lines 259–293).  `uuid.New()`
and `time.Now()` are passed in as `newID` and `now`.  The operation performs
no uniqueness check against existing slugs and cannot fail in the model
(filesystem write errors are out of scope), so it returns the stored blog
and the new data-root state. -/
def CreateBlog (now newID : Nat) (st : DataRoot) (blog : Blog) : Blog × DataRoot :=
  let blog := { blog with ID := newID, Created := now, Updated := now }
  let blog := if blog.AuthorName = "" then { blog with AuthorName := "John Doe" } else blog
  let blog := if blog.AuthorUsername = "" then { blog with AuthorUsername := "johndoe" } else blog
  let blog := if blog.MetaName = "" then { blog with MetaName := blog.Title } else blog
  let blog := if blog.MetaDescription = "" then
    { blog with MetaDescription := "Read about " ++ blog.Title } else blog
  let blog := if blog.Slug = "" then { blog with Slug := slugify blog.Title } else blog
  (blog, saveBlog st blog blog.Slug)

/-- The field patching of `UpdateBlogBySlug` (blog_storage.go, lines 331–350):
apply every supplied change over the existing blog, re-stamp `Updated`. -/
def applyUpdates (b : Blog) (u : UpdateBlogRequest) (now : Nat) : Blog :=
  let b := match u.Title with | some t => { b with Title := t } | none => b
  let b := match u.Content with | some c => { b with Content := c } | none => b
  let b := match u.MetaName with | some m => { b with MetaName := m } | none => b
  let b := match u.MetaDescription with | some m => { b with MetaDescription := m } | none => b
  let b := match u.Slug with | some s => { b with Slug := s } | none => b
  let b := match u.Published with | some p => { b with Published := p } | none => b
  { b with Updated := now }

/-- The slug-conflict scan of `UpdateBlogBySlug` (blog_storage.go, lines
319–326): some *other* decodable blog (different id) already has the
requested slug. -/
def slugConflict (blogs : List Blog) (newSlug : String) (selfID : Nat) : Bool :=
  blogs.any fun b => b.Slug = newSlug && ¬(b.ID = selfID)

/-- Embedding of `UpdateBlogBySlug` (blog_storage.go, lines 297–369):
load and find the target, check slug uniqueness, apply the changes, rename
the directory if the slug changed, then `saveBlog(*existingBlog, slug)` —
the *old* slug parameter, exactly as in the source.  Returns the result and
the resulting data-root state. -/
def UpdateBlogBySlug (now : Nat) (st : DataRoot) (slug : String)
    (updates : UpdateBlogRequest) : Except StoreErr Blog × DataRoot :=
  match loadAllBlogs now st with
  | .error _ => (.error .goPanic, st)
  | .ok blogs =>
    match findBySlug blogs slug with
    | none => (.error .notFound, st)
    | some existing =>
      let conflict : Bool := match updates.Slug with
        | some s' => ¬(s' = existing.Slug) && slugConflict blogs s' existing.ID
        | none => false
      if conflict then (.error .slugExists, st)
      else
        let oldSlug := existing.Slug
        let updated := applyUpdates existing updates now
        let slugChanged : Bool := match updates.Slug with
          | some s' => ¬(s' = oldSlug)
          | none => false
        if slugChanged then
          match fsRename st oldSlug updated.Slug with
          | none => (.error .renameFailed, st)
          | some st' => (.ok updated, saveBlog st' updated slug)
        else
          (.ok updated, saveBlog st updated slug)

/-- Embedding of `DeleteBlogBySlug` (blog_storage.go, lines 371–401): load
all blogs, check one with the slug exists (`blog not found` otherwise), then
`os.RemoveAll` the directory *named by the slug*. -/
def DeleteBlogBySlug (now : Nat) (st : DataRoot) (slug : String) :
    Except StoreErr Unit × DataRoot :=
  match loadAllBlogs now st with
  | .error _ => (.error .goPanic, st)
  | .ok blogs =>
    if blogs.any fun b => b.Slug = slug then
      (.ok (), fsRemoveAll st slug)
    else
      (.error .notFound, st)

/-! ## Helper predicates used to state the claims -/

/-- Whether a list of characters contains two consecutive hyphens. -/
def hasDoubleHyphen : List Char → Bool
  | '-' :: '-' :: _ => true
  | _ :: rest => hasDoubleHyphen rest
  | [] => false

/-- Whether the JSON object field `k` is present with a string value. -/
def fieldIsString (fields : List (String × JVal)) (k : String) : Bool :=
  match jGet fields k with
  | some (.str _) => true
  | _ => false

/-- Whether the JSON object field `k` is present with a boolean value. -/
def fieldIsBool (fields : List (String × JVal)) (k : String) : Bool :=
  match jGet fields k with
  | some (.jbool _) => true
  | _ => false

/-- A directory that cannot trip the unchecked type assertions of
`loadAllBlogs`: either one of the early checks (missing file, invalid JSON,
unusable id) already rejects it, or all asserted fields have the right JSON
type. -/
def entrySafe (d : Dir) : Bool :=
  match d.contentFile, d.metadataFile with
  | some _, some (.obj fields) =>
    if (parseIdField (jGet fields "id")).isSome then
      fieldIsString fields "title" && fieldIsString fields "author_name" &&
        fieldIsString fields "author_username" && fieldIsString fields "meta_name" &&
        fieldIsString fields "meta_description" && fieldIsString fields "slug" &&
        fieldIsBool fields "published"
    else true
  | _, _ => true

/-- The slug of the blog a directory decodes to, if it decodes at all. -/
def loadSlug : LoadResult → Option String
  | .ok b => some b.Slug
  | _ => none

/-! ## Concrete fixtures for witnesses and counterexamples -/

/-- A decodable blog record with the given id, creation time and slug. -/
def mkBlog (id created : Nat) (slug : String) : Blog where
  ID := id
  Title := "t"
  Content := "c"
  AuthorName := "an"
  AuthorUsername := "au"
  MetaName := "mn"
  MetaDescription := "md"
  Slug := slug
  Created := created
  Updated := created
  Published := true

/-- One well-formed post stored under directory `a` (claim C1's input). -/
def stOneA : DataRoot := [("a", saveDir (mkBlog 1 10 "a") "a")]

/-- The update request that only renames the slug to `b`. -/
def updSlugB : UpdateBlogRequest := { Slug := some "b" }

/-- Metadata that parses as JSON with a good id but a boolean `title`:
the unchecked assertion `metadata["title"].(string)` panics on it. -/
def dirBadTitle : Dir where
  contentFile := some "c"
  metadataFile := some (.obj [("id", .str "1"), ("title", .jbool true)])

/-- A data root with one ill-shaped post (claim C2's counterexample). -/
def stBadTitle : DataRoot := [("x", dirBadTitle)]

/-- A directory whose metadata file is not valid JSON. -/
def dirCorrupt : Dir where
  contentFile := some "c"
  metadataFile := some .invalid

/-- A directory whose metadata has an unparseable id. -/
def dirBadId : Dir where
  contentFile := some "c"
  metadataFile := some (.obj [("id", .str "not-a-uuid"), ("title", .str "t")])

/-- A data root mixing one good post with a corrupt-JSON post and a bad-id
post (witness for claim C2's amended statement). -/
def stMixed : DataRoot :=
  [("bad1", dirCorrupt), ("bad2", dirBadId), ("good", saveDir (mkBlog 1 10 "good") "good")]

/-- Two well-formed posts under slugs `a` and `b` (created at distinct
times). -/
def stTwo : DataRoot :=
  [("a", saveDir (mkBlog 1 20 "a") "a"), ("b", saveDir (mkBlog 2 10 "b") "b")]

/-- A subdirectory `x` holding only a body file, next to a post whose
metadata claims slug `x` from directory `y` (claim C8's counterexample). -/
def stOrphanClaimed : DataRoot :=
  [("x", { contentFile := some "c", metadataFile := none }),
   ("y", saveDir (mkBlog 1 10 "x") "x")]

/-- A subdirectory holding only a body file, next to one good post
(witness for claim C8's amended statement). -/
def stOrphan : DataRoot :=
  [("good", saveDir (mkBlog 1 10 "good") "good"),
   ("only", { contentFile := some "c", metadataFile := none })]

/-- A post whose metadata claims slug `x` but which lives in directory `y`
(claim C9's counterexample). -/
def stMismatch : DataRoot := [("y", saveDir (mkBlog 1 10 "x") "x")]

/-- A blog submission with no slug and a title with no alphanumeric
characters (claim C10's corner case). -/
def blogNoSlug : Blog where
  ID := 0
  Title := "!!!"
  Content := "body"
  AuthorName := ""
  AuthorUsername := ""
  MetaName := ""
  MetaDescription := ""
  Slug := ""
  Created := 0
  Updated := 0
  Published := false

/-- A blog submission for the `Hello, World!` example of claim C6. -/
def blogHello : Blog where
  ID := 0
  Title := "Hello, World!"
  Content := "body"
  AuthorName := ""
  AuthorUsername := ""
  MetaName := ""
  MetaDescription := ""
  Slug := ""
  Created := 0
  Updated := 0
  Published := false

/-- The normal form of the blog record persisted by `CreateBlog` (proved
equal to the one the operation builds in `CreateBlog_eq`). -/
def createdBlog (now newID : Nat) (b : Blog) : Blog where
  ID := newID
  Title := b.Title
  Content := b.Content
  AuthorName := if b.AuthorName = "" then "John Doe" else b.AuthorName
  AuthorUsername := if b.AuthorUsername = "" then "johndoe" else b.AuthorUsername
  MetaName := if b.MetaName = "" then b.Title else b.MetaName
  MetaDescription := if b.MetaDescription = "" then "Read about " ++ b.Title
    else b.MetaDescription
  Slug := if b.Slug = "" then slugify b.Title else b.Slug
  Created := now
  Updated := now
  Published := b.Published

/-! ## Round-trip of the serialised numeric fields -/
theorem digitVal_digitChar : ∀ k, k < 10 → digitVal (digitChar k) = some k := by
  decide

theorem natFromDigitsAux_append_digit (k : Nat) (hk : k < 10) :
    ∀ (l : List Char) (acc m : Nat), natFromDigitsAux l acc = some m →
      natFromDigitsAux (l ++ [digitChar k]) acc = some (m * 10 + k) := by
  intro l
  induction l with
  | nil =>
    intro acc m h
    simp only [natFromDigitsAux] at h
    cases h
    simp [natFromDigitsAux, digitVal_digitChar k hk]
  | cons c rest ih =>
    intro acc m h
    simp only [natFromDigitsAux] at h ⊢
    cases hd : digitVal c with
    | none => rw [hd] at h; exact absurd h (by simp)
    | some d =>
      rw [hd] at h
      simp only at h ⊢
      exact ih _ _ h

theorem natToStrAux_ne_nil (fuel n : Nat) : natToStrAux (fuel + 1) n ≠ [] := by
  simp only [natToStrAux]
  split
  · simp
  · simp

theorem natToStrAux_parses :
    ∀ (fuel n acc : Nat), n < 10 ^ fuel →
      natFromDigitsAux (natToStrAux (fuel + 1) n) acc =
        some (acc * 10 ^ (natToStrAux (fuel + 1) n).length + n) := by
  intro fuel
  induction fuel with
  | zero =>
    intro n acc hn
    have hn0 : n = 0 := Nat.lt_one_iff.mp hn
    subst hn0
    have h0 : digitVal (digitChar 0) = some 0 := by decide
    simp [natToStrAux, natFromDigitsAux, h0]
  | succ g ih =>
    intro n acc hn
    by_cases h10 : n < 10
    · have h0 : digitVal (digitChar n) = some n := digitVal_digitChar n h10
      simp [natToStrAux, if_pos h10, natFromDigitsAux, h0]
    · have hrec : n / 10 < 10 ^ g := by
        have hlt : n < 10 ^ g * 10 := by
          calc n < 10 ^ (g + 1) := hn
          _ = 10 ^ g * 10 := by ring
        exact Nat.div_lt_of_lt_mul (by omega)
      have hunfold : natToStrAux (g + 1 + 1) n
          = natToStrAux (g + 1) (n / 10) ++ [digitChar (n % 10)] := by
        rw [natToStrAux, if_neg h10]
      have happ := natFromDigitsAux_append_digit (n % 10) (Nat.mod_lt n (by omega))
        (natToStrAux (g + 1) (n / 10)) acc _ (ih (n / 10) acc hrec)
      rw [hunfold, happ]
      have hlen : (natToStrAux (g + 1) (n / 10) ++ [digitChar (n % 10)]).length
          = (natToStrAux (g + 1) (n / 10)).length + 1 := by
        simp
      rw [hlen, pow_succ]
      congr 1
      rw [← mul_assoc]
      generalize acc * 10 ^ (natToStrAux (g + 1) (n / 10)).length = Q
      omega

theorem parseNatStr_natToStr (n : Nat) : parseNatStr (natToStr n) = some n := by
  have hlt : n < 10 ^ n := Nat.lt_pow_self (by omega) n
  have h := natToStrAux_parses n n 0 hlt
  simp only [natToStr, parseNatStr]
  cases hc : natToStrAux (n + 1) n with
  | nil => exact absurd hc (natToStrAux_ne_nil n n)
  | cons c rest =>
    rw [hc] at h
    simpa using h

/-! ## Lemmas about the slug generator -/

theorem mem_collapseOnce : ∀ (l : List Char), ∀ c ∈ collapseOnce l, c ∈ l
  | [] => by simp [collapseOnce]
  | [c0] => by simp [collapseOnce]
  | c1 :: c2 :: rest => by
    intro c hc
    simp only [collapseOnce] at hc
    split at hc
    · rename_i hcond
      rcases List.mem_cons.mp hc with h | h
      · subst h
        simp [hcond.1]
      · exact List.mem_cons_of_mem _ (List.mem_cons_of_mem _ (mem_collapseOnce rest c h))
    · rcases List.mem_cons.mp hc with h | h
      · simp [h]
      · exact List.mem_cons_of_mem _ (mem_collapseOnce (c2 :: rest) c h)

theorem head?_dropWhile_false (p : Char → Bool) :
    ∀ (l : List Char) (a : Char), (l.dropWhile p).head? = some a → p a = false
  | [], a => by simp [List.dropWhile]
  | c :: rest, a => by
    intro h
    rw [List.dropWhile_cons] at h
    split at h
    · exact head?_dropWhile_false p rest a h
    · simp only [List.head?_cons, Option.some.injEq] at h
      subst h
      rename_i hc
      simpa using hc

theorem getLast?_dropWhile (p : Char → Bool) :
    ∀ (l : List Char), l.dropWhile p ≠ [] → (l.dropWhile p).getLast? = l.getLast?
  | [] => by simp
  | c :: rest => by
    intro hne
    by_cases hp : p c
    · rw [List.dropWhile_cons, if_pos hp] at hne ⊢
      rw [getLast?_dropWhile p rest hne]
      cases rest with
      | nil => exact absurd (by simp) hne
      | cons d ds => simp
    · rw [List.dropWhile_cons, if_neg hp]

theorem mem_trimHyphens (l : List Char) (c : Char) (hc : c ∈ trimHyphens l) : c ∈ l := by
  unfold trimHyphens at hc
  rw [List.mem_reverse] at hc
  have h1 := (List.dropWhile_sublist _).mem hc
  rw [List.mem_reverse] at h1
  exact (List.dropWhile_sublist _).mem h1

theorem trimHyphens_head? (l : List Char) (a : Char)
    (h : (trimHyphens l).head? = some a) : ¬(a = '-') := by
  unfold trimHyphens at h
  rw [List.head?_reverse] at h
  by_cases hne : ((l.dropWhile fun c => c = '-').reverse.dropWhile fun c => c = '-') = []
  · rw [hne] at h
    simp at h
  · rw [getLast?_dropWhile _ _ hne, List.getLast?_reverse] at h
    have hfalse := head?_dropWhile_false (fun c => decide (c = '-')) l a h
    simpa using hfalse

theorem trimHyphens_getLast? (l : List Char) (a : Char)
    (h : (trimHyphens l).getLast? = some a) : ¬(a = '-') := by
  unfold trimHyphens at h
  rw [List.getLast?_reverse] at h
  have hfalse := head?_dropWhile_false (fun c => decide (c = '-')) _ a h
  simpa using hfalse

theorem slugify_data (title : String) :
    (slugify title).data = trimHyphens (collapseOnce
      (((title.data.map Char.toLower).map spaceToHyphen).filter fun c => isSlugChar c)) := rfl

/-- C3, counterexample: the claim that `slugify` collapses every run of
repeated hyphens to one — so its output never contains two consecutive
hyphens — is false.  The title `"a   b"` (three spaces) slugifies to
`"a--b"`: the run of three hyphens goes through the single non-overlapping
`strings.ReplaceAll(slug, "--", "-")` pass as `"---" → "--"`. -/
theorem slugify_counterexample :
    slugify "a   b" = "a--b" ∧ hasDoubleHyphen (slugify "a   b").data = true :=
  ⟨by decide, by decide⟩

/-- C3 (amended): for every title, `slugify title` contains only lowercase
ASCII letters, digits and hyphens, and has no leading or trailing hyphen;
but hyphen runs are only halved by the single `"--" → "-"` replacement pass,
not fully collapsed, so two consecutive hyphens can remain in the output
(see `slugify_counterexample`). -/
theorem slugify_output_shape (title : String) :
    (∀ c ∈ (slugify title).data, isSlugChar c = true) ∧
    ¬((slugify title).data.head? = some '-') ∧
    ¬((slugify title).data.getLast? = some '-') := by
  refine ⟨?_, ?_, ?_⟩
  · intro c hc
    rw [slugify_data] at hc
    have h1 := mem_trimHyphens _ c hc
    have h2 := mem_collapseOnce _ c h1
    exact (List.mem_filter.mp h2).2
  · intro h
    rw [slugify_data] at h
    exact trimHyphens_head? _ _ h rfl
  · intro h
    rw [slugify_data] at h
    exact trimHyphens_getLast? _ _ h rfl

/-! ## Lemmas about the directory scan -/

theorem assertString_of_fieldIsString (fields : List (String × JVal)) (k : String)
    (h : fieldIsString fields k = true) : ∃ s, jGet fields k = some (.str s) := by
  unfold fieldIsString at h
  cases hj : jGet fields k with
  | none => rw [hj] at h; simp at h
  | some v =>
    cases v with
    | str s => exact ⟨s, rfl⟩
    | jbool b => rw [hj] at h; simp at h
    | jnum n => rw [hj] at h; simp at h
    | jnull => rw [hj] at h; simp at h

theorem assertBool_of_fieldIsBool (fields : List (String × JVal)) (k : String)
    (h : fieldIsBool fields k = true) : ∃ b, jGet fields k = some (.jbool b) := by
  unfold fieldIsBool at h
  cases hj : jGet fields k with
  | none => rw [hj] at h; simp at h
  | some v =>
    cases v with
    | str s => rw [hj] at h; simp at h
    | jbool b => exact ⟨b, rfl⟩
    | jnum n => rw [hj] at h; simp at h
    | jnull => rw [hj] at h; simp at h

theorem entrySafe_not_panicked (now : Nat) (d : Dir) (hd : entrySafe d = true) :
    loadBlogFromDir now d ≠ .panicked := by
  rcases d with ⟨cf, mf⟩
  rcases cf with _ | content
  · simp [loadBlogFromDir]
  rcases mf with _ | mfile
  · simp [loadBlogFromDir]
  rcases mfile with _ | fields
  · simp [loadBlogFromDir]
  simp only [entrySafe] at hd
  cases hid : parseIdField (jGet fields "id") with
  | none => simp [loadBlogFromDir, hid]
  | some idv =>
    rw [hid] at hd
    simp only [Option.isSome_some, if_true, Bool.and_eq_true] at hd
    obtain ⟨⟨⟨⟨⟨⟨ht, ha⟩, hu⟩, hm⟩, hmd⟩, hs⟩, hp⟩ := hd
    obtain ⟨t, ht⟩ := assertString_of_fieldIsString _ _ ht
    obtain ⟨a, ha⟩ := assertString_of_fieldIsString _ _ ha
    obtain ⟨u, hu⟩ := assertString_of_fieldIsString _ _ hu
    obtain ⟨m, hm⟩ := assertString_of_fieldIsString _ _ hm
    obtain ⟨md, hmd⟩ := assertString_of_fieldIsString _ _ hmd
    obtain ⟨sl, hs⟩ := assertString_of_fieldIsString _ _ hs
    obtain ⟨p, hp⟩ := assertBool_of_fieldIsBool _ _ hp
    simp [loadBlogFromDir, hid, ht, ha, hu, hm, hmd, hs, hp, assertString, assertBool]

theorem decodeEntries_ok_of_safe (now : Nat) :
    ∀ (st : DataRoot), (∀ e ∈ st, entrySafe e.2 = true) →
      ∃ l, decodeEntries now st = .ok l
  | [] => fun _ => ⟨[], rfl⟩
  | (name, d) :: rest => fun hsafe => by
    obtain ⟨l, hl⟩ := decodeEntries_ok_of_safe now rest
      (fun e he => hsafe e (List.mem_cons_of_mem _ he))
    by_cases hname : name = ""
    · exact ⟨l, by simp [decodeEntries, hname, hl]⟩
    · have hnp := entrySafe_not_panicked now d (hsafe (name, d) (List.mem_cons_self _ _))
      cases hload : loadBlogFromDir now d with
      | notBlog => exact ⟨l, by simp [decodeEntries, hname, hload, hl]⟩
      | skip => exact ⟨l, by simp [decodeEntries, hname, hload, hl]⟩
      | panicked => exact absurd hload hnp
      | ok b => exact ⟨b :: l, by simp [decodeEntries, hname, hload, hl]⟩

theorem mem_decodeEntries (now : Nat) :
    ∀ (st : DataRoot) (l : List Blog), decodeEntries now st = .ok l →
      ∀ b, b ∈ l ↔ ∃ e ∈ st, ¬(e.1 = "") ∧ loadBlogFromDir now e.2 = .ok b
  | [], l, h, b => by
    simp only [decodeEntries] at h
    cases h
    simp
  | (name, d) :: rest, l, h, b => by
    simp only [decodeEntries] at h
    by_cases hname : name = ""
    · rw [if_pos hname] at h
      rw [mem_decodeEntries now rest l h b]
      constructor
      · rintro ⟨e, he, hne, hok⟩
        exact ⟨e, List.mem_cons_of_mem _ he, hne, hok⟩
      · rintro ⟨e, he, hne, hok⟩
        rcases List.mem_cons.mp he with rfl | he'
        · exact absurd hname hne
        · exact ⟨e, he', hne, hok⟩
    · rw [if_neg hname] at h
      cases hload : loadBlogFromDir now d with
      | panicked => rw [hload] at h; exact absurd h (by simp)
      | ok b0 =>
        rw [hload] at h
        cases hrest : decodeEntries now rest with
        | error e => rw [hrest] at h; exact absurd h (by simp)
        | ok l' =>
          rw [hrest] at h
          simp only [Except.ok.injEq] at h
          subst h
          rw [List.mem_cons, mem_decodeEntries now rest l' hrest b]
          constructor
          · rintro (rfl | ⟨e, he, hne, hok⟩)
            · exact ⟨(name, d), List.mem_cons_self _ _, hname, hload⟩
            · exact ⟨e, List.mem_cons_of_mem _ he, hne, hok⟩
          · rintro ⟨e, he, hne, hok⟩
            rcases List.mem_cons.mp he with rfl | he'
            · left
              rw [hload] at hok
              cases hok
              rfl
            · right
              exact ⟨e, he', hne, hok⟩
      | notBlog =>
        rw [hload] at h
        rw [mem_decodeEntries now rest l h b]
        constructor
        · rintro ⟨e, he, hne, hok⟩
          exact ⟨e, List.mem_cons_of_mem _ he, hne, hok⟩
        · rintro ⟨e, he, hne, hok⟩
          rcases List.mem_cons.mp he with rfl | he'
          · rw [hload] at hok; cases hok
          · exact ⟨e, he', hne, hok⟩
      | skip =>
        rw [hload] at h
        rw [mem_decodeEntries now rest l h b]
        constructor
        · rintro ⟨e, he, hne, hok⟩
          exact ⟨e, List.mem_cons_of_mem _ he, hne, hok⟩
        · rintro ⟨e, he, hne, hok⟩
          rcases List.mem_cons.mp he with rfl | he'
          · rw [hload] at hok; cases hok
          · exact ⟨e, he', hne, hok⟩

/-! ## Lemmas about `findBySlug` and the filesystem operations -/

theorem findBySlug_some : ∀ (l : List Blog) (s : String) (b : Blog),
    findBySlug l s = some b → b ∈ l ∧ b.Slug = s
  | [], s, b => by simp [findBySlug]
  | x :: rest, s, b => by
    intro h
    simp only [findBySlug] at h
    split at h
    · cases h
      rename_i hx
      exact ⟨List.mem_cons_self _ _, hx⟩
    · obtain ⟨hmem, hslug⟩ := findBySlug_some rest s b h
      exact ⟨List.mem_cons_of_mem _ hmem, hslug⟩

theorem findBySlug_none_iff : ∀ (l : List Blog) (s : String),
    findBySlug l s = none ↔ ∀ b ∈ l, ¬(b.Slug = s)
  | [], s => by simp [findBySlug]
  | x :: rest, s => by
    simp only [findBySlug]
    split
    · rename_i hx
      constructor
      · intro h; cases h
      · intro h
        exact absurd hx (h x (List.mem_cons_self _ _))
    · rename_i hx
      rw [findBySlug_none_iff rest s]
      constructor
      · intro h b hb
        rcases List.mem_cons.mp hb with rfl | hb'
        · exact hx
        · exact h b hb'
      · intro h b hb
        exact h b (List.mem_cons_of_mem _ hb)

theorem findBySlug_unique : ∀ (l : List Blog) (s : String) (b : Blog),
    b ∈ l → b.Slug = s → (∀ x ∈ l, x.Slug = s → x = b) → findBySlug l s = some b
  | [], s, b => by simp
  | x :: rest, s, b => by
    intro hmem hslug huniq
    simp only [findBySlug]
    split
    · rename_i hx
      rw [huniq x (List.mem_cons_self _ _) hx]
    · rename_i hx
      rcases List.mem_cons.mp hmem with rfl | hmem'
      · exact absurd hslug hx
      · exact findBySlug_unique rest s b hmem' hslug
          (fun y hy hys => huniq y (List.mem_cons_of_mem _ hy) hys)

theorem fsGet_fsSet_self : ∀ (st : DataRoot) (name : String) (d : Dir),
    fsGet (fsSet st name d) name = some d
  | [], name, d => by simp [fsSet, fsGet]
  | (n, x) :: rest, name, d => by
    by_cases hn : n = name
    · simp [fsSet, hn, fsGet]
    · simp only [fsSet, if_neg hn, fsGet]
      exact fsGet_fsSet_self rest name d

theorem mem_fsSet_self : ∀ (st : DataRoot) (name : String) (d : Dir),
    (name, d) ∈ fsSet st name d
  | [], name, d => by simp [fsSet]
  | (n, x) :: rest, name, d => by
    by_cases hn : n = name
    · simp [fsSet, hn]
    · simp only [fsSet, if_neg hn]
      exact List.mem_cons_of_mem _ (mem_fsSet_self rest name d)

theorem keys_fsSet_subset : ∀ (st : DataRoot) (name : String) (d : Dir) (k : String),
    k ∈ (fsSet st name d).map Prod.fst → k ∈ st.map Prod.fst ∨ k = name
  | [], name, d, k => by simp [fsSet]
  | (n, x) :: rest, name, d, k => by
    by_cases hn : n = name
    · simp only [fsSet, if_pos hn, List.map_cons, List.mem_cons]
      rintro (rfl | h)
      · right; exact hn
      · left; simp [h]
    · simp only [fsSet, if_neg hn, List.map_cons, List.mem_cons]
      rintro (rfl | h)
      · left; left; rfl
      · rcases keys_fsSet_subset rest name d k h with h' | h'
        · left; right; exact h'
        · right; exact h'

theorem nodup_keys_fsSet : ∀ (st : DataRoot) (name : String) (d : Dir),
    (st.map Prod.fst).Nodup → ((fsSet st name d).map Prod.fst).Nodup
  | [], name, d => by simp [fsSet]
  | (n, x) :: rest, name, d => by
    intro hnd
    simp only [List.map_cons, List.nodup_cons] at hnd
    obtain ⟨hnotin, hrest⟩ := hnd
    by_cases hn : n = name
    · simp only [fsSet, if_pos hn, List.map_cons, List.nodup_cons]
      exact ⟨hnotin, hrest⟩
    · simp only [fsSet, if_neg hn, List.map_cons, List.nodup_cons]
      refine ⟨?_, nodup_keys_fsSet rest name d hrest⟩
      intro hmem
      rcases keys_fsSet_subset rest name d n hmem with h' | h'
      · exact hnotin h'
      · exact hn h'

theorem mem_fsSet_nodup : ∀ (st : DataRoot) (name : String) (d : Dir)
    (e : String × Dir), (st.map Prod.fst).Nodup → e ∈ fsSet st name d →
      e = (name, d) ∨ (e ∈ st ∧ ¬(e.1 = name))
  | [], name, d, e => by
    intro _ he
    simp only [fsSet, List.mem_singleton] at he
    exact Or.inl he
  | (n, x) :: rest, name, d, e => by
    intro hnd he
    simp only [List.map_cons, List.nodup_cons] at hnd
    obtain ⟨hnotin, hrest⟩ := hnd
    by_cases hn : n = name
    · subst hn
      have hset : fsSet ((n, x) :: rest) n d = (n, d) :: rest := by
        simp [fsSet]
      rw [hset] at he
      rcases List.mem_cons.mp he with rfl | he'
      · exact Or.inl rfl
      · right
        refine ⟨List.mem_cons_of_mem _ he', ?_⟩
        intro h1
        exact hnotin (by
          rw [← h1]
          exact List.mem_map_of_mem Prod.fst he')
    · have hset : fsSet ((n, x) :: rest) name d = (n, x) :: fsSet rest name d := by
        simp [fsSet, hn]
      rw [hset] at he
      rcases List.mem_cons.mp he with rfl | he'
      · exact Or.inr ⟨List.mem_cons_self _ _, hn⟩
      · rcases mem_fsSet_nodup rest name d e hrest he' with h' | ⟨hmem, hne⟩
        · exact Or.inl h'
        · exact Or.inr ⟨List.mem_cons_of_mem _ hmem, hne⟩

theorem fsGet_mem : ∀ (st : DataRoot) (name : String) (d : Dir),
    fsGet st name = some d → (name, d) ∈ st
  | [], name, d => by simp [fsGet]
  | (n, x) :: rest, name, d => by
    intro h
    simp only [fsGet] at h
    split at h
    · cases h
      rename_i hn
      rw [← hn]
      exact List.mem_cons_self _ _
    · exact List.mem_cons_of_mem _ (fsGet_mem rest name d h)

/-! ## The write/read round-trip of the codec -/

theorem loadBlogFromDir_saveDir (now : Nat) (b : Blog) (s : String) :
    loadBlogFromDir now (saveDir b s) = .ok { b with Slug := s } := by
  simp [loadBlogFromDir, saveDir, metadataOf, jGet, parseIdField, parseTimeField,
    assertString, assertBool, parseNatStr_natToStr]

theorem blog_eta_slug (b : Blog) (s : String) (h : b.Slug = s) :
    { b with Slug := s } = b := by
  cases b
  simp only at h
  simp [h]

/-! ## The normal form of `CreateBlog` -/

theorem CreateBlog_eq (now newID : Nat) (st : DataRoot) (b : Blog) :
    CreateBlog now newID st b =
      (createdBlog now newID b,
        saveBlog st (createdBlog now newID b) (createdBlog now newID b).Slug) := by
  simp only [CreateBlog, createdBlog]
  split_ifs <;> rfl

theorem slugConflict_iff (blogs : List Blog) (s : String) (selfID : Nat) :
    slugConflict blogs s selfID = true ↔
      ∃ b ∈ blogs, b.Slug = s ∧ ¬(b.ID = selfID) := by
  simp [slugConflict, List.any_eq_true]

theorem entrySafe_saveDir (b : Blog) (s : String) : entrySafe (saveDir b s) = true := by
  simp [entrySafe, saveDir, metadataOf, jGet, fieldIsString, fieldIsBool,
    parseIdField, parseNatStr_natToStr]

theorem loadBlogFromDir_incomplete (now : Nat) (d : Dir)
    (h : d.contentFile = none ∨ d.metadataFile = none) :
    loadBlogFromDir now d = .notBlog := by
  rcases d with ⟨cf, mf⟩
  rcases h with h | h
  · simp only at h
    subst h
    simp [loadBlogFromDir]
  · simp only at h
    subst h
    rcases cf with _ | c <;> simp [loadBlogFromDir]

theorem fsGet_of_mem_nodup : ∀ (st : DataRoot) (name : String) (x : Dir),
    (st.map Prod.fst).Nodup → (name, x) ∈ st → fsGet st name = some x
  | [], name, x => by simp
  | (n, y) :: rest, name, x => by
    intro hnd hmem
    simp only [List.map_cons, List.nodup_cons] at hnd
    obtain ⟨hnotin, hrest⟩ := hnd
    rcases List.mem_cons.mp hmem with heq | hmem'
    · cases heq
      simp [fsGet]
    · have hne : ¬(n = name) := by
        intro h
        subst h
        exact hnotin (List.mem_map_of_mem Prod.fst hmem')
      simp only [fsGet, if_neg hne]
      exact fsGet_of_mem_nodup rest name x hrest hmem'

theorem decodeEntries_fsSet_root (now : Nat) : ∀ (st : DataRoot) (d : Dir),
    decodeEntries now (fsSet st "" d) = decodeEntries now st
  | [], d => by simp [fsSet, decodeEntries]
  | (n, x) :: rest, d => by
    by_cases hn : n = ""
    · subst hn
      have hset : fsSet (("", x) :: rest) "" d = ("", d) :: rest := by
        simp [fsSet]
      rw [hset]
      simp [decodeEntries]
    · have hset : fsSet ((n, x) :: rest) "" d = (n, x) :: fsSet rest "" d := by
        simp [fsSet, hn]
      rw [hset]
      simp only [decodeEntries, if_neg hn]
      rw [decodeEntries_fsSet_root now rest d]

/-! ## Claim C1 -/

/-- C1 (code bug): updating the post stored in directory `a` with new slug
`b` succeeds and returns the blog with slug `b`, and the directory is
renamed — but the store then re-persists the post under the *old* slug
parameter (`saveBlog(*existingBlog, slug)` in the source), so directory `a`
is recreated, the moved directory `b` still holds metadata claiming slug
`a`, and `GetBlogBySlug` for the new slug fails with not-found.  This
contradicts the claim (and the spec's stated intent) that after a
successful slug change the post's files reside only under the new slug and
`getBySlug(newSlug)` returns the updated post. -/
theorem updateBySlug_rename_bug :
    (UpdateBlogBySlug 20 stOneA "a" updSlugB).1 =
        .ok { mkBlog 1 10 "a" with Slug := "b", Updated := 20 } ∧
    fsGet (UpdateBlogBySlug 20 stOneA "a" updSlugB).2 "a" ≠ none ∧
    GetBlogBySlug 21 (UpdateBlogBySlug 20 stOneA "a" updSlugB).2 "b" = .error .notFound :=
  ⟨by decide, by decide, by decide⟩

/-! ## Claim C2 -/

/-- C2, counterexample: a data root with one subdirectory whose metadata is
valid JSON with a parseable id but a *boolean* `title` field is not
"silently omitted": the unchecked type assertion
`metadata["title"].(string)` panics and the whole listing aborts, refuting
the claim that `GetAllBlogs` always returns normally with bad posts
skipped. -/
theorem getAllBlogs_panic_counterexample :
    GetAllBlogs 0 stBadTitle = .error .goPanic := by decide

/-- C2 (amended): on every data root in which no subdirectory trips the
unchecked type assertions (each subdirectory that passes the JSON-parse and
id checks has string/bool fields of the right shape, `entrySafe`),
`GetAllBlogs` returns normally; subdirectories that fail the early decode
checks — corrupt JSON, unparseable or missing id, missing file — are
silently omitted, and every decodable subdirectory contributes its post.
A metadata field of the wrong shape, however, panics and aborts the whole
listing (see `getAllBlogs_panic_counterexample`). -/
theorem getAllBlogs_skips_undecodable (now : Nat) (st : DataRoot)
    (hsafe : ∀ e ∈ st, entrySafe e.2 = true) :
    ∃ l, GetAllBlogs now st = .ok l ∧
      (∀ b ∈ l, ∃ e ∈ st, ¬(e.1 = "") ∧ loadBlogFromDir now e.2 = .ok b) ∧
      (∀ e ∈ st, ¬(e.1 = "") → ∀ b, loadBlogFromDir now e.2 = .ok b → b ∈ l) := by
  obtain ⟨l0, hl0⟩ := decodeEntries_ok_of_safe now st hsafe
  refine ⟨List.insertionSort createdGE l0, ?_, ?_, ?_⟩
  · simp [GetAllBlogs, loadAllBlogs, hl0]
  · intro b hb
    have hb0 : b ∈ l0 := (List.mem_insertionSort createdGE).mp hb
    exact (mem_decodeEntries now st l0 hl0 b).mp hb0
  · intro e he hne b hok
    have hb0 : b ∈ l0 := (mem_decodeEntries now st l0 hl0 b).mpr ⟨e, he, hne, hok⟩
    exact (List.mem_insertionSort createdGE).mpr hb0

/-- C2, witness: the amended statement evaluated on a concrete data root
holding one good post, one corrupt-JSON directory and one bad-id
directory. -/
theorem getAllBlogs_skips_undecodable_witness :
    ∃ l, GetAllBlogs 0 stMixed = .ok l ∧
      (∀ b ∈ l, ∃ e ∈ stMixed, ¬(e.1 = "") ∧ loadBlogFromDir 0 e.2 = .ok b) ∧
      (∀ e ∈ stMixed, ¬(e.1 = "") → ∀ b, loadBlogFromDir 0 e.2 = .ok b → b ∈ l) :=
  getAllBlogs_skips_undecodable 0 stMixed (by decide)

/-! ## Claim C7 -/

/-- C7: on every data-root state whose decodable posts have pairwise
distinct creation times, `GetAllBlogs` returns exactly those posts (a
permutation of the decoded list) sorted by creation time in strictly
descending order, newest first. -/
theorem getAllBlogs_sorted (now : Nat) (st : DataRoot) (l : List Blog)
    (hdec : decodeEntries now st = .ok l)
    (hdist : (l.map Blog.Created).Nodup) :
    GetAllBlogs now st = .ok (List.insertionSort createdGE l) ∧
    (List.insertionSort createdGE l).Perm l ∧
    List.Pairwise (fun a b => b.Created < a.Created)
      (List.insertionSort createdGE l) := by
  refine ⟨by simp [GetAllBlogs, loadAllBlogs, hdec],
    List.perm_insertionSort createdGE l, ?_⟩
  have hsorted : List.Pairwise createdGE (List.insertionSort createdGE l) :=
    List.sorted_insertionSort createdGE l
  have hperm : ((List.insertionSort createdGE l).map Blog.Created).Perm
      (l.map Blog.Created) :=
    (List.perm_insertionSort createdGE l).map Blog.Created
  have hnd : ((List.insertionSort createdGE l).map Blog.Created).Nodup :=
    hperm.nodup_iff.mpr hdist
  have hne : List.Pairwise (fun a b : Blog => ¬(a.Created = b.Created))
      (List.insertionSort createdGE l) := List.pairwise_map.mp hnd
  exact (hsorted.and hne).imp
    (fun h => Nat.lt_of_le_of_ne h.1 (fun he => h.2 he.symm))

/-- C7, witness: the ordering statement evaluated on a concrete data root
with two posts created at times 20 and 10. -/
theorem getAllBlogs_sorted_witness :
    GetAllBlogs 0 stTwo =
        .ok (List.insertionSort createdGE [mkBlog 1 20 "a", mkBlog 2 10 "b"]) ∧
    (List.insertionSort createdGE [mkBlog 1 20 "a", mkBlog 2 10 "b"]).Perm
        [mkBlog 1 20 "a", mkBlog 2 10 "b"] ∧
    List.Pairwise (fun a b => b.Created < a.Created)
      (List.insertionSort createdGE [mkBlog 1 20 "a", mkBlog 2 10 "b"]) :=
  getAllBlogs_sorted 0 stTwo [mkBlog 1 20 "a", mkBlog 2 10 "b"] (by decide) (by decide)

/-! ## Claim C4 -/

/-- C4: when the target post exists, `UpdateBlogBySlug` fails with the
slug-conflict error exactly when the change set carries a slug different
from the target's current slug that some other decodable post (different
id) already uses — in particular updating a post to its own current slug
never conflicts — and whenever the conflict error is raised the data root
is left completely unchanged. -/
theorem updateBySlug_conflict_iff (now : Nat) (st : DataRoot) (slug : String)
    (upd : UpdateBlogRequest) (blogs : List Blog) (target : Blog)
    (hload : loadAllBlogs now st = .ok blogs)
    (hfind : findBySlug blogs slug = some target) :
    ((UpdateBlogBySlug now st slug upd).1 = .error .slugExists ↔
      ∃ s', upd.Slug = some s' ∧ ¬(s' = target.Slug) ∧
        ∃ b ∈ blogs, b.Slug = s' ∧ ¬(b.ID = target.ID)) ∧
    ((UpdateBlogBySlug now st slug upd).1 = .error .slugExists →
      (UpdateBlogBySlug now st slug upd).2 = st) := by
  simp only [UpdateBlogBySlug, hload, hfind]
  cases hupd : upd.Slug with
  | none =>
    constructor
    · constructor
      · intro h
        simp at h
      · rintro ⟨s', hs', _⟩
        cases hs'
    · intro h
      simp at h
  | some s' =>
    constructor
    · constructor
      · intro h
        split_ifs at h with hc hs
        all_goals first
        | (simp only [Bool.and_eq_true, decide_eq_true_eq] at hc
           exact ⟨s', rfl, hc.1, (slugConflict_iff blogs s' target.ID).mp hc.2⟩)
        | (split at h <;> simp at h)
      · rintro ⟨s'', hs'', hne, hb⟩
        cases hs''
        have hc : (decide (¬(s' = target.Slug)) && slugConflict blogs s' target.ID) = true := by
          simp only [Bool.and_eq_true, decide_eq_true_eq]
          exact ⟨hne, (slugConflict_iff blogs s' target.ID).mpr hb⟩
        split_ifs with hcc
        all_goals first
        | (exact absurd hc hcc)
        | rfl
    · intro h
      split_ifs at h ⊢ with hc hs
      all_goals first
      | rfl
      | (split at h <;> simp at h)

/-- C4, witness: the conflict characterisation evaluated on a store with two
posts `a` and `b`, updating post `a`'s slug to the already-used `b`. -/
theorem updateBySlug_conflict_iff_witness :
    ((UpdateBlogBySlug 0 stTwo "a" updSlugB).1 = .error .slugExists ↔
      ∃ s', updSlugB.Slug = some s' ∧ ¬(s' = (mkBlog 1 20 "a").Slug) ∧
        ∃ b ∈ [mkBlog 1 20 "a", mkBlog 2 10 "b"], b.Slug = s' ∧
          ¬(b.ID = (mkBlog 1 20 "a").ID)) ∧
    ((UpdateBlogBySlug 0 stTwo "a" updSlugB).1 = .error .slugExists →
      (UpdateBlogBySlug 0 stTwo "a" updSlugB).2 = stTwo) :=
  updateBySlug_conflict_iff 0 stTwo "a" updSlugB
    [mkBlog 1 20 "a", mkBlog 2 10 "b"] (mkBlog 1 20 "a") (by decide) (by decide)

/-! ## Claim C5 -/

/-- C5: creation performs no uniqueness check against existing slugs — in
the model `CreateBlog` is total, it cannot reject a duplicate — so when the
new post's final slug `s` (supplied or derived from its title) is already
the slug of the post stored in directory `s`, the create succeeds and
simply overwrites that directory's metadata and content files in place:
afterwards directory `s` holds exactly the new post's two files and
`GetBlogBySlug s` returns the new post — last write wins. -/
theorem createBlog_overwrites (now newID : Nat) (st : DataRoot) (b2 : Blog)
    (s : String) (d0 : Dir) (p1 : Blog)
    (hnodup : (st.map Prod.fst).Nodup)
    (hsafe : ∀ e ∈ st, entrySafe e.2 = true)
    (hd0 : fsGet st s = some d0)
    (hp1 : loadBlogFromDir now d0 = .ok p1)
    (hp1s : p1.Slug = s)
    (hothers : ∀ e ∈ st, ¬(e.1 = s) → ¬(loadSlug (loadBlogFromDir now e.2) = some s))
    (hslug : (CreateBlog now newID st b2).1.Slug = s)
    (hs : ¬(s = "")) :
    (CreateBlog now newID st b2).2 =
      fsSet st s (saveDir (CreateBlog now newID st b2).1 s) ∧
    fsGet (CreateBlog now newID st b2).2 s =
      some (saveDir (CreateBlog now newID st b2).1 s) ∧
    GetBlogBySlug now (CreateBlog now newID st b2).2 s =
      .ok (CreateBlog now newID st b2).1 := by
  have hpair := CreateBlog_eq now newID st b2
  have h1 : (CreateBlog now newID st b2).1 = createdBlog now newID b2 := by rw [hpair]
  have hslug' : (createdBlog now newID b2).Slug = s := by
    rw [← h1]
    exact hslug
  have hst2 : (CreateBlog now newID st b2).2 =
      fsSet st s (saveDir (createdBlog now newID b2) s) := by
    rw [hpair]
    show fsSet st (createdBlog now newID b2).Slug
      (saveDir (createdBlog now newID b2) (createdBlog now newID b2).Slug) = _
    rw [hslug']
  have hsafe2 : ∀ e ∈ fsSet st s (saveDir (createdBlog now newID b2) s),
      entrySafe e.2 = true := by
    intro e he
    rcases mem_fsSet_nodup st s _ e hnodup he with rfl | ⟨hmem, _⟩
    · exact entrySafe_saveDir _ _
    · exact hsafe e hmem
  obtain ⟨l2, hl2⟩ := decodeEntries_ok_of_safe now _ hsafe2
  have hokload : loadBlogFromDir now (saveDir (createdBlog now newID b2) s) =
      .ok (createdBlog now newID b2) := by
    rw [loadBlogFromDir_saveDir, blog_eta_slug _ _ hslug']
  have hmem2 : createdBlog now newID b2 ∈ l2 :=
    (mem_decodeEntries now _ l2 hl2 _).mpr
      ⟨(s, saveDir (createdBlog now newID b2) s), mem_fsSet_self st s _, hs, hokload⟩
  have huniq : ∀ x ∈ l2, x.Slug = s → x = createdBlog now newID b2 := by
    intro x hx hxs
    obtain ⟨e, he, hne, hok⟩ := (mem_decodeEntries now _ l2 hl2 x).mp hx
    rcases mem_fsSet_nodup st s _ e hnodup he with rfl | ⟨hmem, h1e⟩
    · rw [hokload] at hok
      cases hok
      rfl
    · exact absurd (by rw [hok]; simp [loadSlug, hxs]) (hothers e hmem h1e)
  have hfind : findBySlug (List.insertionSort createdGE l2) s =
      some (createdBlog now newID b2) :=
    findBySlug_unique _ s _ ((List.mem_insertionSort createdGE).mpr hmem2) hslug'
      (fun x hx hxs => huniq x ((List.mem_insertionSort createdGE).mp hx) hxs)
  refine ⟨by rw [hst2, h1], ?_, ?_⟩
  · rw [hst2, h1]
    exact fsGet_fsSet_self st s _
  · rw [hst2, h1]
    simp [GetBlogBySlug, loadAllBlogs, hl2, hfind]

/-- C5, witness: creating a second post with the already-used slug `a` over
the store `stOneA` succeeds and overwrites the stored post. -/
theorem createBlog_overwrites_witness :
    (CreateBlog 30 7 stOneA (mkBlog 5 99 "a")).2 =
      fsSet stOneA "a" (saveDir (CreateBlog 30 7 stOneA (mkBlog 5 99 "a")).1 "a") ∧
    fsGet (CreateBlog 30 7 stOneA (mkBlog 5 99 "a")).2 "a" =
      some (saveDir (CreateBlog 30 7 stOneA (mkBlog 5 99 "a")).1 "a") ∧
    GetBlogBySlug 30 (CreateBlog 30 7 stOneA (mkBlog 5 99 "a")).2 "a" =
      .ok (CreateBlog 30 7 stOneA (mkBlog 5 99 "a")).1 :=
  createBlog_overwrites 30 7 stOneA (mkBlog 5 99 "a") "a"
    (saveDir (mkBlog 1 10 "a") "a") (mkBlog 1 10 "a")
    (by decide) (by decide) (by decide) (by decide) (by decide) (by decide)
    (by decide) (by decide)

/-! ## Claim C6 -/

/-- C6: a create stamps the freshly generated id, sets `Created = Updated =
now`, keeps title and content, fills each empty optional field with its
fallback (`"John Doe"` / `"johndoe"` for the author fields, the title and
`"Read about " ++ title` for the meta fields) and derives the slug via
`slugify` when none is supplied; in particular creating
`"Hello, World!"` with no explicit slug yields slug `"hello-world"`, and
immediately afterwards `GetBlogBySlug` of that slug returns the created
post, whose `Created` equals its `Updated`. -/
theorem createBlog_defaults (now newID : Nat) (st : DataRoot) (b : Blog) :
    ((CreateBlog now newID st b).1.ID = newID ∧
     (CreateBlog now newID st b).1.Created = now ∧
     (CreateBlog now newID st b).1.Updated = now ∧
     (CreateBlog now newID st b).1.Title = b.Title ∧
     (CreateBlog now newID st b).1.Content = b.Content ∧
     (CreateBlog now newID st b).1.AuthorName =
       (if b.AuthorName = "" then "John Doe" else b.AuthorName) ∧
     (CreateBlog now newID st b).1.AuthorUsername =
       (if b.AuthorUsername = "" then "johndoe" else b.AuthorUsername) ∧
     (CreateBlog now newID st b).1.MetaName =
       (if b.MetaName = "" then b.Title else b.MetaName) ∧
     (CreateBlog now newID st b).1.MetaDescription =
       (if b.MetaDescription = "" then "Read about " ++ b.Title
        else b.MetaDescription) ∧
     (CreateBlog now newID st b).1.Slug =
       (if b.Slug = "" then slugify b.Title else b.Slug)) ∧
    slugify "Hello, World!" = "hello-world" ∧
    (CreateBlog 7 3 [] blogHello).1.Slug = "hello-world" ∧
    GetBlogBySlug 7 (CreateBlog 7 3 [] blogHello).2 "hello-world" =
      .ok (CreateBlog 7 3 [] blogHello).1 ∧
    (CreateBlog 7 3 [] blogHello).1.Title = "Hello, World!" ∧
    (CreateBlog 7 3 [] blogHello).1.Content = "body" ∧
    (CreateBlog 7 3 [] blogHello).1.Created = (CreateBlog 7 3 [] blogHello).1.Updated := by
  refine ⟨?_, by decide, by decide, by decide, by decide, by decide, by decide⟩
  rw [CreateBlog_eq]
  simp [createdBlog]

/-! ## Claim C8 -/

/-- C8, counterexample: the claim's second half fails on arbitrary data
roots.  In `stOrphanClaimed`, directory `x` holds only the body file, yet
`GetBlogBySlug "x"` succeeds instead of failing with not-found: the lookup
goes by the *metadata* slug, and the post stored in directory `y` claims
slug `x`. -/
theorem getBlogBySlug_orphan_counterexample :
    fsGet stOrphanClaimed "x" = some { contentFile := some "c", metadataFile := none } ∧
    GetBlogBySlug 0 stOrphanClaimed "x" = .ok (mkBlog 1 10 "x") :=
  ⟨by decide, by decide⟩

/-- C8 (amended): a subdirectory containing only one of the two expected
files contributes no post to `GetAllBlogs`; and provided no decodable post
elsewhere in the data root claims that directory's name as its metadata
slug (and no directory trips the unchecked type assertions),
`GetBlogBySlug` queried with that directory's name fails with not-found.
A post is visible to list/get only once both files exist; the extra
proviso is forced by `getBlogBySlug_orphan_counterexample`. -/
theorem incomplete_dir_invisible (now : Nat) (st : DataRoot) (name : String)
    (d : Dir)
    (hnodup : (st.map Prod.fst).Nodup)
    (hsafe : ∀ e ∈ st, entrySafe e.2 = true)
    (hd : fsGet st name = some d)
    (hincomplete : d.contentFile = none ∨ d.metadataFile = none)
    (hnoclaim : ∀ e ∈ st, ¬(loadSlug (loadBlogFromDir now e.2) = some name)) :
    (∀ l, GetAllBlogs now st = .ok l →
      ∀ b ∈ l, ∃ e ∈ st, ¬(e.1 = name) ∧ loadBlogFromDir now e.2 = .ok b) ∧
    GetBlogBySlug now st name = .error .notFound := by
  obtain ⟨l0, hl0⟩ := decodeEntries_ok_of_safe now st hsafe
  have hnotdir : loadBlogFromDir now d = .notBlog := loadBlogFromDir_incomplete now d hincomplete
  constructor
  · intro l hl b hb
    have hget : GetAllBlogs now st = .ok (List.insertionSort createdGE l0) := by
      simp [GetAllBlogs, loadAllBlogs, hl0]
    rw [hget] at hl
    cases hl
    have hb0 : b ∈ l0 := (List.mem_insertionSort createdGE).mp hb
    obtain ⟨e, he, hne, hok⟩ := (mem_decodeEntries now st l0 hl0 b).mp hb0
    refine ⟨e, he, ?_, hok⟩
    intro h1
    have hed : e.2 = d := by
      have hfe : fsGet st name = some e.2 := by
        rw [← h1]
        exact fsGet_of_mem_nodup st e.1 e.2 hnodup (by
          rw [show (e.1, e.2) = e from rfl]
          exact he)
      rw [hd] at hfe
      cases hfe
      rfl
    rw [hed, hnotdir] at hok
    cases hok
  · have hnone : findBySlug (List.insertionSort createdGE l0) name = none := by
      rw [findBySlug_none_iff]
      intro b hb hbs
      have hb0 : b ∈ l0 := (List.mem_insertionSort createdGE).mp hb
      obtain ⟨e, he, hne, hok⟩ := (mem_decodeEntries now st l0 hl0 b).mp hb0
      exact hnoclaim e he (by rw [hok]; simp [loadSlug, hbs])
    simp [GetBlogBySlug, loadAllBlogs, hl0, hnone]

/-- C8, witness: the amended statement evaluated on a data root holding one
good post and one directory with only a body file. -/
theorem incomplete_dir_invisible_witness :
    (∀ l, GetAllBlogs 0 stOrphan = .ok l →
      ∀ b ∈ l, ∃ e ∈ stOrphan, ¬(e.1 = "only") ∧ loadBlogFromDir 0 e.2 = .ok b) ∧
    GetBlogBySlug 0 stOrphan "only" = .error .notFound :=
  incomplete_dir_invisible 0 stOrphan "only"
    { contentFile := some "c", metadataFile := none }
    (by decide) (by decide) (by decide) (by decide) (by decide)

theorem loadSlug_some (r : LoadResult) (s : String) (h : loadSlug r = some s) :
    ∃ b, r = .ok b ∧ b.Slug = s := by
  cases r with
  | ok b =>
    simp only [loadSlug, Option.some.injEq] at h
    exact ⟨b, rfl, h⟩
  | notBlog => simp [loadSlug] at h
  | skip => simp [loadSlug] at h
  | panicked => simp [loadSlug] at h

/-! ## Claim C9 -/

/-- C9, counterexample: the claim fails on arbitrary data roots.  In
`stMismatch` the only post's metadata claims slug `x` while it lives in
directory `y`; `DeleteBlogBySlug "x"` *succeeds* (the existence check goes
by metadata slug), removes the non-existent directory `x` — a no-op, since
Go's `os.RemoveAll` does not fail on a missing path — leaves the state
unchanged, and afterwards `GetBlogBySlug "x"` still returns the post
rather than failing with not-found. -/
theorem deleteBySlug_mismatch_counterexample :
    (DeleteBlogBySlug 0 stMismatch "x").1 = .ok () ∧
    (DeleteBlogBySlug 0 stMismatch "x").2 = stMismatch ∧
    GetBlogBySlug 0 stMismatch "x" = .ok (mkBlog 1 10 "x") :=
  ⟨by decide, by decide, by decide⟩

/-- C9 (amended): on a well-formed data root — no directory trips the
unchecked type assertions, and every decodable post's metadata slug equals
its directory name (forced by `deleteBySlug_mismatch_counterexample`) —
`DeleteBlogBySlug` fails with not-found exactly when no decodable listed
post carries the slug, in which case nothing on disk is touched; on
success it removes exactly the directory named by the slug, and afterwards
`GetBlogBySlug` of that slug fails with not-found and the post is absent
from the listing. -/
theorem deleteBySlug_spec (now : Nat) (st : DataRoot) (slug : String)
    (hsafe : ∀ e ∈ st, entrySafe e.2 = true)
    (hwf : ∀ e ∈ st, (loadSlug (loadBlogFromDir now e.2)).getD e.1 = e.1) :
    ((DeleteBlogBySlug now st slug).1 = .error .notFound ↔
      ∀ e ∈ st, ¬(e.1 = "") → ¬(loadSlug (loadBlogFromDir now e.2) = some slug)) ∧
    ((DeleteBlogBySlug now st slug).1 = .error .notFound →
      (DeleteBlogBySlug now st slug).2 = st) ∧
    ((DeleteBlogBySlug now st slug).1 = .ok () →
      (DeleteBlogBySlug now st slug).2 = st.filter (fun e => ¬(e.1 = slug)) ∧
      GetBlogBySlug now (DeleteBlogBySlug now st slug).2 slug = .error .notFound ∧
      (∀ l, GetAllBlogs now (DeleteBlogBySlug now st slug).2 = .ok l →
        ∀ b ∈ l, ¬(b.Slug = slug))) := by
  obtain ⟨l0, hl0⟩ := decodeEntries_ok_of_safe now st hsafe
  have hload : loadAllBlogs now st = .ok (List.insertionSort createdGE l0) := by
    simp [loadAllBlogs, hl0]
  simp only [DeleteBlogBySlug, hload]
  by_cases hany :
      ((List.insertionSort createdGE l0).any fun b => decide (b.Slug = slug)) = true
  · obtain ⟨b0, hb0mem, hb0dec⟩ := List.any_eq_true.mp hany
    have hb0s : b0.Slug = slug := of_decide_eq_true hb0dec
    obtain ⟨e0, he0, hne0, hok0⟩ := (mem_decodeEntries now st l0 hl0 b0).mp
      ((List.mem_insertionSort createdGE).mp hb0mem)
    have hslugname : slug = e0.1 := by
      have := hwf e0 he0
      rw [hok0] at this
      simp only [loadSlug, Option.getD_some] at this
      rw [← hb0s, this]
    have hslugne : ¬(slug = "") := by
      rw [hslugname]
      exact hne0
    have hclaim0 : loadSlug (loadBlogFromDir now e0.2) = some slug := by
      rw [hok0]
      simp [loadSlug, hb0s]
    rw [if_pos hany]
    have hremove : fsRemoveAll st slug = st.filter (fun e => ¬(e.1 = slug)) := by
      rw [fsRemoveAll, if_neg hslugne]
    have hsafe' : ∀ e ∈ st.filter (fun e => ¬(e.1 = slug)), entrySafe e.2 = true :=
      fun e he => hsafe e (List.mem_filter.mp he).1
    obtain ⟨l', hl'⟩ := decodeEntries_ok_of_safe now _ hsafe'
    have hnoslug : ∀ x ∈ l', ¬(x.Slug = slug) := by
      intro x hx hxs
      obtain ⟨e, he, hne, hok⟩ := (mem_decodeEntries now _ l' hl' x).mp hx
      have hef := List.mem_filter.mp he
      have hene : ¬(e.1 = slug) := by simpa using hef.2
      have := hwf e hef.1
      rw [hok] at this
      simp only [loadSlug, Option.getD_some] at this
      exact hene (by rw [← this, hxs])
    refine ⟨?_, ?_, ?_⟩
    · constructor
      · intro h
        simp at h
      · intro hall
        exact absurd hclaim0 (hall e0 he0 hne0)
    · intro h
      simp at h
    · intro _
      refine ⟨hremove, ?_, ?_⟩
      · have hnone : findBySlug (List.insertionSort createdGE l') slug = none := by
          rw [findBySlug_none_iff]
          intro x hx
          exact hnoslug x ((List.mem_insertionSort createdGE).mp hx)
        show GetBlogBySlug now (fsRemoveAll st slug) slug = .error .notFound
        rw [hremove]
        simp only [GetBlogBySlug, loadAllBlogs, hl', hnone]
      · intro l hl b hb
        have : GetAllBlogs now (fsRemoveAll st slug) =
            .ok (List.insertionSort createdGE l') := by
          rw [hremove]
          simp only [GetAllBlogs, loadAllBlogs, hl']
        rw [this] at hl
        cases hl
        exact hnoslug b ((List.mem_insertionSort createdGE).mp hb)
  · rw [if_neg hany]
    refine ⟨?_, fun _ => rfl, ?_⟩
    · constructor
      · intro _ e he hne hclaim
        obtain ⟨b, hbok, hbs⟩ := loadSlug_some _ _ hclaim
        have hbmem : b ∈ l0 := (mem_decodeEntries now st l0 hl0 b).mpr ⟨e, he, hne, hbok⟩
        exact hany (List.any_eq_true.mpr
          ⟨b, (List.mem_insertionSort createdGE).mpr hbmem, decide_eq_true hbs⟩)
      · intro _
        rfl
    · intro h
      simp at h

/-- C9, witness: the amended delete specification evaluated on the
two-post store `stTwo`, deleting slug `a`. -/
theorem deleteBySlug_spec_witness :
    ((DeleteBlogBySlug 0 stTwo "a").1 = .error .notFound ↔
      ∀ e ∈ stTwo, ¬(e.1 = "") → ¬(loadSlug (loadBlogFromDir 0 e.2) = some "a")) ∧
    ((DeleteBlogBySlug 0 stTwo "a").1 = .error .notFound →
      (DeleteBlogBySlug 0 stTwo "a").2 = stTwo) ∧
    ((DeleteBlogBySlug 0 stTwo "a").1 = .ok () →
      (DeleteBlogBySlug 0 stTwo "a").2 = stTwo.filter (fun e => ¬(e.1 = "a")) ∧
      GetBlogBySlug 0 (DeleteBlogBySlug 0 stTwo "a").2 "a" = .error .notFound ∧
      (∀ l, GetAllBlogs 0 (DeleteBlogBySlug 0 stTwo "a").2 = .ok l →
        ∀ b ∈ l, ¬(b.Slug = "a"))) :=
  deleteBySlug_spec 0 stTwo "a" (by decide) (by decide)

/-! ## Claim C10 -/

/-- C10: when the caller supplies no slug and the title contains no ASCII
letters or digits, the derived slug is the empty string; `CreateBlog`
still succeeds and returns a post with empty slug, but it writes
`metadata.json` and `content.md` directly into the data root itself
(`filepath.Join(dataDir, "")` is `dataDir`); those root-level files fail
the `entry.IsDir()` check of the scan, so the listing is completely
unchanged — the post never appears in `GetAllBlogs` — and
`GetBlogBySlug ""` fails with not-found (on roots where no decodable
subdirectory claims the empty slug and none trips the type assertions,
which is every API-reachable root). -/
theorem createBlog_emptySlug (now newID : Nat) (st : DataRoot) (b : Blog)
    (hbslug : b.Slug = "") (htitle : slugify b.Title = "")
    (hsafe : ∀ e ∈ st, entrySafe e.2 = true)
    (hnoclaim : ∀ e ∈ st, ¬(loadSlug (loadBlogFromDir now e.2) = some "")) :
    (CreateBlog now newID st b).1.Slug = "" ∧
    (CreateBlog now newID st b).2 =
      fsSet st "" (saveDir (CreateBlog now newID st b).1 "") ∧
    (∀ now2, GetAllBlogs now2 (CreateBlog now newID st b).2 = GetAllBlogs now2 st) ∧
    GetBlogBySlug now (CreateBlog now newID st b).2 "" = .error .notFound := by
  have hpair := CreateBlog_eq now newID st b
  have h1 : (CreateBlog now newID st b).1 = createdBlog now newID b := by rw [hpair]
  have hslug' : (createdBlog now newID b).Slug = "" := by
    simp [createdBlog, hbslug, htitle]
  have hst2 : (CreateBlog now newID st b).2 =
      fsSet st "" (saveDir (createdBlog now newID b) "") := by
    rw [hpair]
    show fsSet st (createdBlog now newID b).Slug
      (saveDir (createdBlog now newID b) (createdBlog now newID b).Slug) = _
    rw [hslug']
  have hdec : ∀ now2,
      decodeEntries now2 (fsSet st "" (saveDir (createdBlog now newID b) "")) =
        decodeEntries now2 st :=
    fun now2 => decodeEntries_fsSet_root now2 st _
  refine ⟨by rw [h1]; exact hslug', by rw [hst2, h1], ?_, ?_⟩
  · intro now2
    rw [hst2]
    simp only [GetAllBlogs, loadAllBlogs, hdec now2]
  · rw [hst2]
    obtain ⟨l0, hl0⟩ := decodeEntries_ok_of_safe now st hsafe
    have hl2 : decodeEntries now (fsSet st "" (saveDir (createdBlog now newID b) ""))
        = .ok l0 := by
      rw [hdec now, hl0]
    have hnone : findBySlug (List.insertionSort createdGE l0) "" = none := by
      rw [findBySlug_none_iff]
      intro x hx hxs
      obtain ⟨e, he, hne, hok⟩ := (mem_decodeEntries now st l0 hl0 x).mp
        ((List.mem_insertionSort createdGE).mp hx)
      exact hnoclaim e he (by rw [hok]; simp [loadSlug, hxs])
    simp only [GetBlogBySlug, loadAllBlogs, hl2, hnone]

/-- C10, witness: creating a post titled `"!!!"` with no slug over the
data root `stOrphan`. -/
theorem createBlog_emptySlug_witness :
    (CreateBlog 40 9 stOrphan blogNoSlug).1.Slug = "" ∧
    (CreateBlog 40 9 stOrphan blogNoSlug).2 =
      fsSet stOrphan "" (saveDir (CreateBlog 40 9 stOrphan blogNoSlug).1 "") ∧
    (∀ now2, GetAllBlogs now2 (CreateBlog 40 9 stOrphan blogNoSlug).2 =
      GetAllBlogs now2 stOrphan) ∧
    GetBlogBySlug 40 (CreateBlog 40 9 stOrphan blogNoSlug).2 "" = .error .notFound :=
  createBlog_emptySlug 40 9 stOrphan blogNoSlug (by decide) (by decide)
    (by decide) (by decide)

end GoBlog
